import Mathlib

/-!
Verification of the distributed STL surface writer (CSTLFileWriter.cpp).

The embedding models the state the writer reads from the parallel data
sorter: a contiguous partition of global node ids over the ranks, the
per-rank triangle / quadrilateral connectivity (1-based global node ids,
stored flat), and the per-rank field values of the nodes each rank owns.
MPI collectives (Alltoall, Alltoallv, Gather, Allreduce) are given their
standard deterministic semantics: a receive buffer built with prefix-sum
displacements is the concatenation, in rank order, of the per-peer
segments cut out of the senders by the matching send displacements.
-/

namespace STLWriter

/-- Prefix sum of the first n values of f.  Models the displacement
prefix-sum loops of ReprocessElementConnectivity (lines 108-114). -/
def sumTo (f : Nat → Nat) : Nat → Nat
  | 0 => 0
  | n + 1 => sumTo f n + f n

/-- Shallow embedding of the mesh state the writer reads from the
parallel data sorter.  Rank r owns global node ids in the interval
from nodeBegin r (inclusive) to nodeBegin (r+1) (exclusive); findProc
is the ownership map (GetNodeBegin / FindProcessor); triaConn and
quadConn give, per rank, the flat 1-based connectivity
(GetElem_Connectivity with flat index elem*nPoints + corner); localData
gives, per rank, the field values of the nodes the rank owns, indexed
by field and by local offset (GetData).  size is the number of MPI
ranks and nFields the number of fields (fieldnames.size()). -/
structure Mesh where
  size : Nat
  nFields : Nat
  nodeBegin : Nat → Nat
  findProc : Nat → Nat
  nTria : Nat → Nat
  nQuad : Nat → Nat
  triaConn : Nat → Nat → Nat
  quadConn : Nat → Nat → Nat
  localData : Nat → Nat → Nat → Int

/-- Consistent partition of the global node ids: at least one rank, the
partition boundaries are monotone, and the ownership map sends every
valid global id to the rank whose interval contains it. -/
def Mesh.ValidPartition (m : Mesh) : Prop :=
  0 < m.size ∧
  (∀ r, r < m.size → m.nodeBegin r ≤ m.nodeBegin (r + 1)) ∧
  (∀ g, g < m.nodeBegin m.size →
    m.findProc g < m.size ∧ m.nodeBegin (m.findProc g) ≤ g ∧
      g < m.nodeBegin (m.findProc g + 1))

/-- Valid connectivity: every stored (1-based) node reference of a
triangle or quadrilateral element denotes an existing global node. -/
def Mesh.ValidConn (m : Mesh) : Prop :=
  ∀ r, r < m.size →
    (∀ i, i < m.nTria r * 3 →
      1 ≤ m.triaConn r i ∧ m.triaConn r i - 1 < m.nodeBegin m.size) ∧
    (∀ i, i < m.nQuad r * 4 →
      1 ≤ m.quadConn r i ∧ m.quadConn r i - 1 < m.nodeBegin m.size)

/-- A valid, consistently partitioned mesh. -/
def Mesh.Valid (m : Mesh) : Prop := m.ValidPartition ∧ m.ValidConn

instance (m : Mesh) : Decidable m.ValidPartition := by
  unfold Mesh.ValidPartition; infer_instance

instance (m : Mesh) : Decidable m.ValidConn := by
  unfold Mesh.ValidConn; infer_instance

instance (m : Mesh) : Decidable m.Valid := by
  unfold Mesh.Valid; infer_instance

/-! ## Halo resolver (ReprocessElementConnectivity, lines 50-155) -/

/-- Flat enumeration of the (0-based) global node ids referenced by the
locally owned triangle and quadrilateral elements of rank r that are
owned by another rank (lines 71-77: the insertion candidates of the
halo_nodes std::set, in loop order). -/
def haloCandidates (m : Mesh) (r : Nat) : List Nat :=
  (((List.range (m.nTria r * 3)).map (fun i => m.triaConn r i - 1)).filter
      (fun g => decide (m.findProc g ≠ r)))
    ++ (((List.range (m.nQuad r * 4)).map (fun i => m.quadConn r i - 1)).filter
      (fun g => decide (m.findProc g ≠ r)))

/-- Ordered duplicate-free insertion: the effect of one std::set
insert on the sorted element list of the set. -/
def insertSorted (g : Nat) : List Nat → List Nat
  | [] => [g]
  | x :: xs =>
    if g < x then g :: x :: xs
    else if g = x then x :: xs
    else x :: insertSorted g xs

/-- sorted_halo_nodes of rank r (lines 71-81): the halo_nodes std::set
built by inserting every candidate, read out in ascending order. -/
def sortedHaloNodes (m : Mesh) (r : Nat) : List Nat :=
  (haloCandidates m r).foldl (fun acc g => insertSorted g acc) []

/-- num_halo_nodes of rank r (line 85). -/
def numHaloNodes (m : Mesh) (r : Nat) : Nat := (sortedHaloNodes m r).length

/-- num_nodes_to_receive of rank r, entry rr (lines 97-98): how many of
the halo nodes of rank r are owned by rank rr. -/
def numNodesToReceive (m : Mesh) (r rr : Nat) : Nat :=
  ((sortedHaloNodes m r).filter (fun g => decide (m.findProc g = rr))).length

/-- num_nodes_to_send of rank r, entry rr (line 100, Alltoall of the
count vectors): how many node ids rank r must supply to rank rr. -/
def numNodesToSend (m : Mesh) (r rr : Nat) : Nat :=
  numNodesToReceive m rr r

/-- nodes_to_receive_displacements of rank r (lines 107-113). -/
def nodesToReceiveDispl (m : Mesh) (r rr : Nat) : Nat :=
  sumTo (numNodesToReceive m r) rr

/-- nodes_to_send_displacements of rank r (lines 106-112). -/
def nodesToSendDispl (m : Mesh) (r rr : Nat) : Nat :=
  sumTo (numNodesToSend m r) rr

/-- total_num_nodes_to_send of rank r (line 116), written exactly as in
the source: last displacement plus last count. -/
def totalNumNodesToSend (m : Mesh) (r : Nat) : Nat :=
  nodesToSendDispl m r (m.size - 1) + numNodesToSend m r (m.size - 1)

/-- nodes_to_send of rank r after the request-phase Alltoallv
(lines 118-125): the segment received from peer p is the slice of the
sorted halo list of p selected by the receive displacement and count
that p computed for owner r; the prefix-sum receive displacements place
the segments contiguously in peer order. -/
def nodesToSend (m : Mesh) (r : Nat) : List Nat :=
  (List.range m.size).flatMap (fun p =>
    ((sortedHaloNodes m p).drop (nodesToReceiveDispl m p r)).take
      (numNodesToReceive m p r))

/-- num_values_to_send of rank r, entry rr (line 138). -/
def numValuesToSend (m : Mesh) (r rr : Nat) : Nat :=
  numNodesToSend m r rr * m.nFields

/-- values_to_send_displacements of rank r, entry rr (line 139). -/
def valuesToSendDispl (m : Mesh) (r rr : Nat) : Nat :=
  nodesToSendDispl m r rr * m.nFields

/-- num_values_to_receive of rank r, entry rr (line 140). -/
def numValuesToReceive (m : Mesh) (r rr : Nat) : Nat :=
  numNodesToReceive m r rr * m.nFields

/-- values_to_receive_displacements of rank r, entry rr (line 141). -/
def valuesToReceiveDispl (m : Mesh) (r rr : Nat) : Nat :=
  nodesToReceiveDispl m r rr * m.nFields

/-- The slice of nodes_to_send of rank r holding the requests of peer
p (the indices nodes_to_send_displacements[p] + iNode of line 145). -/
def sendSeg (m : Mesh) (r p : Nat) : List Nat :=
  ((nodesToSend m r).drop (nodesToSendDispl m r p)).take (numNodesToSend m r p)

/-- data_to_send of rank r (lines 133-150): for each peer rank p, for
each field, for each node requested by p, the owning rank reads its
local value at offset global id minus GetNodeBegin(rank).  Note the
field loop is outside the node loop, exactly as in the source. -/
def dataToSend (m : Mesh) (r : Nat) : List Int :=
  (List.range m.size).flatMap (fun p =>
    (List.range m.nFields).flatMap (fun v =>
      (sendSeg m r p).map (fun g => m.localData r v (g - m.nodeBegin r))))

/-- halo_var_data of rank r after the data-phase Alltoallv
(lines 152-154): the segment received from owner p is the slice of
data_to_send of p selected by the value send displacement and count
that p computed for requester r. -/
def haloVarData (m : Mesh) (r : Nat) : List Int :=
  (List.range m.size).flatMap (fun p =>
    ((dataToSend m p).drop (valuesToSendDispl m p r)).take
      (numValuesToReceive m r p))

/-! ## Halo lookup (GetHaloNodeValue, lines 335-352) -/

/-- Distance from begin of std::lower_bound on a sorted list: the
number of elements strictly below g (line 337-338). -/
def lowerBoundIdx (l : List Nat) (g : Nat) : Nat :=
  l.countP (fun x => decide (x < g))

/-- The double loop of GetHaloNodeValue (lines 341-348): iterate the
rank blocks, carrying the running id; the inner loop over the block of
iRank hits the requested offset exactly when id is at most offset and
offset is below id plus the block count, and then reads halo_var_data
at the value displacement of the block plus block-count times the field
index plus the position inside the block.  The fuel argument counts the
remaining rank iterations. -/
def haloScan (m : Mesh) (r v offset : Nat) : Nat → Nat → Nat → Option Int
  | 0, _, _ => none
  | fuel + 1, iRank, id =>
    if id ≤ offset ∧ offset < id + numNodesToReceive m r iRank then
      some ((haloVarData m r).getD
        (valuesToReceiveDispl m r iRank + numNodesToReceive m r iRank * v +
          (offset - id)) 0)
    else
      haloScan m r v offset fuel (iRank + 1) (id + numNodesToReceive m r iRank)

/-- GetHaloNodeValue on rank r: lower_bound into sorted_halo_nodes,
then the block scan; none models the fatal
SU2_MPI::Error (STL File-Writer: Halo node not found., line 350). -/
def GetHaloNodeValue (m : Mesh) (r g v : Nat) : Option Int :=
  haloScan m r v (lowerBoundIdx (sortedHaloNodes m r) g) m.size 0 0

/-! ## Local buffer builder (GatherCoordData, lines 158-257) -/

/-- Resolution of one field value of one referenced node on rank r
(lines 216-227 and 235-246): a locally owned node is read from local
storage at offset global id minus GetNodeBegin(rank), any other node
goes through GetHaloNodeValue.  A failed halo lookup aborts the whole
process; the 0 default of getD is therefore never observed on a run
that completes. -/
def resolveNode (m : Mesh) (r g v : Nat) : Int :=
  if m.findProc g = r then m.localData r v (g - m.nodeBegin r)
  else (GetHaloNodeValue m r g v).getD 0

/-- The triangle section of the send buffer of rank r (lines 212-229):
for each local triangle, each of its 3 points, each of the 3
coordinate fields, the resolved value, in that nesting order. -/
def triaPart (m : Mesh) (r : Nat) : List Int :=
  (List.range (m.nTria r)).flatMap (fun e =>
    (List.range 3).flatMap (fun p =>
      (List.range 3).map (fun v =>
        resolveNode m r (m.triaConn r (e * 3 + p) - 1) v)))

/-- The fixed Nodelist of line 183: the quad corner indices emitted for
the two split triangles. -/
def nodelist : List Nat := [0, 1, 3, 1, 2, 3]

/-- The quadrilateral section of the send buffer of rank r
(lines 233-248): each quad contributes the 6 Nodelist corners, each
with its 3 resolved coordinate fields. -/
def quadPart (m : Mesh) (r : Nat) : List Int :=
  (List.range (m.nQuad r)).flatMap (fun e =>
    nodelist.flatMap (fun c =>
      (List.range 3).map (fun v =>
        resolveNode m r (m.quadConn r (e * 4 + c) - 1) v)))

/-- The true local triangle count nLocalTriaAll of rank r (line 191). -/
def nLocalTriaAll (m : Mesh) (r : Nat) : Nat := m.nTria r + m.nQuad r * 2

/-- The written prefix of bufD_Send on rank r: triangles first, then
the split quads (lines 212-248). -/
def bufSend (m : Mesh) (r : Nat) : List Int := triaPart m r ++ quadPart m r

/-- MaxLocalTriaAll (lines 198-199): Allreduce MAX of the true local
triangle counts. -/
def maxLocalTriaAll (m : Mesh) : Nat :=
  ((List.range m.size).map (nLocalTriaAll m)).foldr max 0

/-- The full physical bufD_Send of rank r (line 206): allocated with
MaxLocalTriaAll*3*3 value-initialized (zero) entries, of which the
first nLocalTriaAll*9 are overwritten with the element data. -/
def bufSendPadded (m : Mesh) (r : Nat) : List Int :=
  bufSend m r ++ List.replicate (maxLocalTriaAll m * 9 - (bufSend m r).length) 0

/-- Buffer_Recv_nTriaAll on the master rank (lines 201-203, Gather of
the true counts): one count per rank, in rank order. -/
def bufferRecvNTriaAll (m : Mesh) : List Nat :=
  (List.range m.size).map (nLocalTriaAll m)

/-- bufD_Recv on the master rank (lines 251-253, fixed-stride Gather):
the per-rank padded buffers concatenated in rank order, each segment
exactly MaxLocalTriaAll*3*3 entries wide. -/
def bufRecv (m : Mesh) : List Int :=
  (List.range m.size).flatMap (bufSendPadded m)

/-! ## Serialization (Write_Data, lines 260-332) -/

/-- One line of the emitted STL artifact.  The numeric payloads are the
exact scalars of the model; the textual rendering (6 significant digit
stream precision, space separation) is abstracted away together with
the floating-point value representation. -/
inductive StlLine where
  | solidHeader
  | facetNormal (nx ny nz : Int)
  | outerLoop
  | vertex (x y z : Int)
  | endLoop
  | endFacet
  | endsolidFooter
deriving DecidableEq

/-- MASTER_NODE, the coordinating rank of the SU2 MPI world. -/
def MASTER_NODE : Nat := 0

/-- One facet record of the artifact (lines 306-319): the fixed
placeholder normal, the outer loop with the three vertex lines read
from bufD_Recv at stride MaxLocalTriaAll*3*3 per rank and 9 per
triangle, and the closing tokens. -/
def facetRecord (m : Mesh) (iProc iElem : Nat) : List StlLine :=
  [StlLine.facetNormal 1 2 3, StlLine.outerLoop]
    ++ (List.range 3).map (fun p =>
      StlLine.vertex
        ((bufRecv m).getD (iProc * (maxLocalTriaAll m * 3 * 3) + iElem * 3 * 3 + p * 3) 0)
        ((bufRecv m).getD (iProc * (maxLocalTriaAll m * 3 * 3) + iElem * 3 * 3 + p * 3 + 1) 0)
        ((bufRecv m).getD (iProc * (maxLocalTriaAll m * 3 * 3) + iElem * 3 * 3 + p * 3 + 2) 0))
    ++ [StlLine.endLoop, StlLine.endFacet]

/-- The artifact written by Write_Data on rank r (lines 291-327): the
master rank alone emits the header, then for each rank in rank order
the first Buffer_Recv_nTriaAll[iProcessor] facet records of its
gathered segment, then the footer; every other rank emits nothing. -/
def writeDataLines (m : Mesh) (r : Nat) : List StlLine :=
  if r = MASTER_NODE then
    StlLine.solidHeader ::
      ((List.range m.size).flatMap (fun iProc =>
        (List.range ((bufferRecvNTriaAll m).getD iProc 0)).flatMap (fun iElem =>
          facetRecord m iProc iElem)))
      ++ [StlLine.endsolidFooter]
  else []

/-! ## Physical buffer sizes of the size-0 edge case -/

/-- The physical sorted_halo_nodes vector after the sentinel resize of
line 122: one zero element when the halo set is empty. -/
def sortedHaloNodesPhys (m : Mesh) (r : Nat) : List Nat :=
  if sortedHaloNodes m r = [] then [0] else sortedHaloNodes m r

/-- Physical allocation size of nodes_to_send (line 118). -/
def nodesToSendPhysLen (m : Mesh) (r : Nat) : Nat :=
  max 1 (totalNumNodesToSend m r)

/-- Physical allocation size of data_to_send (line 128). -/
def dataToSendPhysLen (m : Mesh) (r : Nat) : Nat :=
  max 1 (totalNumNodesToSend m r * m.nFields)

/-- Physical allocation size of halo_var_data (line 129). -/
def haloVarDataPhysLen (m : Mesh) (r : Nat) : Nat :=
  max 1 (m.nFields * numHaloNodes m r)

/-! ## Derived descriptions used to state the claims -/

/-- Processing of one triangle with the given (1-based) corner node
references: for each corner, the 3 resolved coordinate fields.  Both
the native triangle loop and the two split triangles of a quad are
instances of this shape. -/
def triFacet (m : Mesh) (r a b c : Nat) : List Int :=
  [a, b, c].flatMap (fun n =>
    (List.range 3).map (fun v => resolveNode m r (n - 1) v))

/-- Packing of the data phase as the specification words it: all
fields of one requested node contiguous (node-major inside each peer
block).  Stated only to compare against the actual dataToSend. -/
def dataToSendNodeMajor (m : Mesh) (r : Nat) : List Int :=
  (List.range m.size).flatMap (fun p =>
    (sendSeg m r p).flatMap (fun g =>
      (List.range m.nFields).map (fun v => m.localData r v (g - m.nodeBegin r))))

/-- Direct enumeration of the field tuples of the mesh elements of
rank r in (element, node, field) order, triangles first and then the
Nodelist-split quadrilaterals, always reading local storage and never
performing a halo lookup.  This is the reference value of the
single-rank round-trip claim. -/
def directEnum (m : Mesh) (r : Nat) : List Int :=
  (List.range (m.nTria r)).flatMap (fun e =>
    (List.range 3).flatMap (fun p =>
      (List.range 3).map (fun v =>
        m.localData r v ((m.triaConn r (e * 3 + p) - 1) - m.nodeBegin r))))
  ++ (List.range (m.nQuad r)).flatMap (fun e =>
    nodelist.flatMap (fun c =>
      (List.range 3).map (fun v =>
        m.localData r v ((m.quadConn r (e * 4 + c) - 1) - m.nodeBegin r))))

/-- One facet record with its vertex scalars read from the unpadded
send buffer of the producing rank itself, bypassing the gathered
padded concatenation. -/
def facetClean (m : Mesh) (r e : Nat) : List StlLine :=
  [StlLine.facetNormal 1 2 3, StlLine.outerLoop]
    ++ (List.range 3).map (fun p =>
      StlLine.vertex ((bufSend m r).getD (e * 9 + p * 3) 0)
        ((bufSend m r).getD (e * 9 + p * 3 + 1) 0)
        ((bufSend m r).getD (e * 9 + p * 3 + 2) 0))
    ++ [StlLine.endLoop, StlLine.endFacet]

/-- The artifact assembled from the unpadded per-rank buffers: header,
then for each rank its first nLocalTriaAll facet records, then the
footer.  Equality with writeDataLines states that the padded tails of
the gathered buffer are never read. -/
def writeClean (m : Mesh) : List StlLine :=
  StlLine.solidHeader ::
    ((List.range m.size).flatMap (fun r =>
      (List.range (nLocalTriaAll m r)).flatMap (fun e => facetClean m r e)))
    ++ [StlLine.endsolidFooter]

/-- Number of facet records in an emitted line list. -/
def countFacets (lines : List StlLine) : Nat :=
  lines.countP (fun l => decide (l = StlLine.endFacet))

/-- Pointwise agreement of two mesh states on everything Write_Data
reads: rank and field counts, the partition boundaries, the ownership
map on valid ids, the element counts and connectivity of every rank,
and the field values of every owned node. -/
structure MeshAgree (m1 m2 : Mesh) : Prop where
  size_eq : m1.size = m2.size
  nFields_eq : m1.nFields = m2.nFields
  nodeBegin_eq : ∀ r, r ≤ m1.size → m1.nodeBegin r = m2.nodeBegin r
  findProc_eq : ∀ g, g < m1.nodeBegin m1.size → m1.findProc g = m2.findProc g
  nTria_eq : ∀ r, r < m1.size → m1.nTria r = m2.nTria r
  nQuad_eq : ∀ r, r < m1.size → m1.nQuad r = m2.nQuad r
  triaConn_eq : ∀ r, r < m1.size → ∀ i, i < m1.nTria r * 3 →
    m1.triaConn r i = m2.triaConn r i
  quadConn_eq : ∀ r, r < m1.size → ∀ i, i < m1.nQuad r * 4 →
    m1.quadConn r i = m2.quadConn r i
  localData_eq : ∀ r, r < m1.size → ∀ v, v < m1.nFields → ∀ g,
    m1.nodeBegin r ≤ g → g < m1.nodeBegin (r + 1) →
    m1.localData r v (g - m1.nodeBegin r) = m2.localData r v (g - m2.nodeBegin r)

/-! ## Concrete test meshes -/

/-- Two ranks with 4 nodes each; rank 0 owns one triangle whose global
corner nodes are 1, 4 and 5 (so 4 and 5 are halo nodes of rank 0), and
rank 1 owns one quadrilateral on its own nodes 4, 5, 6, 7.  Field v of
global node g carries the value 100*v + g. -/
def demoMesh : Mesh where
  size := 2
  nFields := 3
  nodeBegin := fun r => 4 * r
  findProc := fun g => g / 4
  nTria := fun r => if r = 0 then 1 else 0
  nQuad := fun r => if r = 1 then 1 else 0
  triaConn := fun r i => if r = 0 then [2, 5, 6].getD i 1 else 1
  quadConn := fun r i => if r = 1 then [5, 6, 7, 8].getD i 1 else 1
  localData := fun r v off => (100 * v : Int) + (4 * r + off)

/-- One rank owning all 4 nodes, one triangle and one quadrilateral. -/
def soloMesh : Mesh where
  size := 1
  nFields := 3
  nodeBegin := fun r => 4 * r
  findProc := fun g => g / 4
  nTria := fun _ => 1
  nQuad := fun _ => 1
  triaConn := fun _ i => [1, 2, 3].getD i 1
  quadConn := fun _ i => [1, 2, 3, 4].getD i 1
  localData := fun r v off => (100 * v : Int) + (4 * r + off)

/-! ## Arithmetic of the prefix sums -/

theorem sumTo_congr {f g : Nat → Nat} (n : Nat) (h : ∀ k, k < n → f k = g k) :
    sumTo f n = sumTo g n := by
  induction n with
  | zero => rfl
  | succ n ih =>
    simp only [sumTo]
    rw [ih (fun k hk => h k (by omega)), h n (by omega)]

theorem sumTo_const (c n : Nat) : sumTo (fun _ => c) n = n * c := by
  induction n with
  | zero => simp [sumTo]
  | succ n ih => simp [sumTo, ih, Nat.succ_mul]

theorem sumTo_mul (f : Nat → Nat) (c n : Nat) :
    sumTo (fun k => f k * c) n = sumTo f n * c := by
  induction n with
  | zero => simp [sumTo]
  | succ n ih => simp [sumTo, ih, Nat.add_mul]

theorem sumTo_le_of_le (f : Nat → Nat) {a b : Nat} (h : a ≤ b) :
    sumTo f a ≤ sumTo f b := by
  induction b with
  | zero =>
    have : a = 0 := by omega
    subst this; exact Nat.le_refl _
  | succ b ih =>
    rcases Nat.lt_or_ge a (b + 1) with h' | h'
    · exact Nat.le_trans (ih (by omega)) (Nat.le_add_right _ _)
    · have : a = b + 1 := by omega
      subst this; exact Nat.le_refl _

/-! ## The sorted halo set -/

theorem mem_insertSorted {x g : Nat} : ∀ {l : List Nat},
    x ∈ insertSorted g l ↔ x = g ∨ x ∈ l := by
  intro l
  induction l with
  | nil => simp [insertSorted]
  | cons a t ih =>
    by_cases h1 : g < a
    · simp [insertSorted, h1]
    · by_cases h2 : g = a
      · subst h2; simp [insertSorted, h1]
      · simp only [insertSorted, if_neg h1, if_neg h2, List.mem_cons, ih]
        tauto

theorem insertSorted_sorted {g : Nat} : ∀ {l : List Nat},
    l.Sorted (· < ·) → (insertSorted g l).Sorted (· < ·) := by
  intro l
  induction l with
  | nil => intro _; simp [insertSorted]
  | cons a t ih =>
    intro hs
    rcases List.sorted_cons.mp hs with ⟨ha, ht⟩
    by_cases h1 : g < a
    · simp only [insertSorted, if_pos h1]
      refine List.sorted_cons.mpr ⟨?_, hs⟩
      intro b hb
      rcases List.mem_cons.mp hb with rfl | hb
      · exact h1
      · exact Nat.lt_trans h1 (ha b hb)
    · by_cases h2 : g = a
      · simpa [insertSorted, h1, h2] using hs
      · simp only [insertSorted, if_neg h1, if_neg h2]
        refine List.sorted_cons.mpr ⟨?_, ih ht⟩
        intro b hb
        rcases mem_insertSorted.mp hb with rfl | hb
        · omega
        · exact ha b hb

theorem foldl_insertSorted_sorted : ∀ (l acc : List Nat), acc.Sorted (· < ·) →
    (l.foldl (fun a g => insertSorted g a) acc).Sorted (· < ·) := by
  intro l
  induction l with
  | nil => intro acc h; exact h
  | cons x t ih => intro acc h; exact ih _ (insertSorted_sorted h)

theorem mem_foldl_insertSorted : ∀ (l acc : List Nat) (x : Nat),
    x ∈ l.foldl (fun a g => insertSorted g a) acc ↔ x ∈ acc ∨ x ∈ l := by
  intro l
  induction l with
  | nil => simp
  | cons a t ih =>
    intro acc x
    simp only [List.foldl_cons, ih, mem_insertSorted, List.mem_cons]
    tauto

theorem sortedHaloNodes_sorted (m : Mesh) (r : Nat) :
    (sortedHaloNodes m r).Sorted (· < ·) :=
  foldl_insertSorted_sorted _ _ (List.sorted_nil)

theorem mem_sortedHaloNodes {m : Mesh} {r g : Nat} :
    g ∈ sortedHaloNodes m r ↔ g ∈ haloCandidates m r := by
  unfold sortedHaloNodes
  rw [mem_foldl_insertSorted]
  simp

/-- Membership in the halo candidates, phrased per element and corner:
exactly the node ids referenced by a locally owned triangle or
quadrilateral element whose owner is another rank. -/
theorem mem_haloCandidates {m : Mesh} {r g : Nat} :
    g ∈ haloCandidates m r ↔
      ((∃ e, e < m.nTria r ∧ ∃ c, c < 3 ∧ m.triaConn r (e * 3 + c) - 1 = g) ∨
        (∃ e, e < m.nQuad r ∧ ∃ c, c < 4 ∧ m.quadConn r (e * 4 + c) - 1 = g)) ∧
      m.findProc g ≠ r := by
  unfold haloCandidates
  simp only [List.mem_append, List.mem_filter, List.mem_map, List.mem_range,
    decide_eq_true_eq]
  constructor
  · rintro (⟨⟨i, hi, rfl⟩, hp⟩ | ⟨⟨i, hi, rfl⟩, hp⟩)
    · exact ⟨Or.inl ⟨i / 3, by omega, i % 3, by omega, by
        have : i / 3 * 3 + i % 3 = i := by omega
        rw [this]⟩, hp⟩
    · exact ⟨Or.inr ⟨i / 4, by omega, i % 4, by omega, by
        have : i / 4 * 4 + i % 4 = i := by omega
        rw [this]⟩, hp⟩
  · rintro ⟨⟨e, he, c, hc, rfl⟩ | ⟨e, he, c, hc, rfl⟩, hp⟩
    · exact Or.inl ⟨⟨e * 3 + c, by omega, rfl⟩, hp⟩
    · exact Or.inr ⟨⟨e * 4 + c, by omega, rfl⟩, hp⟩

/-! ## Slicing a buffer assembled from prefix-sum displacements -/

theorem flatMap_congr {α β : Type} {l : List α} {f g : α → List β}
    (h : ∀ a, a ∈ l → f a = g a) : l.flatMap f = l.flatMap g := by
  induction l with
  | nil => rfl
  | cons a t ih =>
    simp only [List.flatMap_cons, h a (by simp), ih (fun x hx => h x (by simp [hx]))]

theorem length_flatMap_range {α : Type} (B : Nat → List α) (n : Nat) :
    ((List.range n).flatMap B).length = sumTo (fun k => (B k).length) n := by
  induction n with
  | zero => simp [sumTo]
  | succ n ih =>
    rw [List.range_succ, List.flatMap_append]
    simp [ih, sumTo]

theorem flatMap_range_drop {α : Type} (B : Nat → List α) {j n : Nat} (h : j ≤ n) :
    ((List.range n).flatMap B).drop (sumTo (fun k => (B k).length) j)
      = (List.range' j (n - j)).flatMap B := by
  induction j with
  | zero => simp [sumTo, List.range_eq_range']
  | succ j ih =>
    have hj : j ≤ n := by omega
    show ((List.range n).flatMap B).drop
      (sumTo (fun k => (B k).length) j + (B j).length) = _
    rw [← List.drop_drop, ih hj]
    have hnj : n - j = (n - (j + 1)) + 1 := by omega
    rw [hnj, List.range'_succ, List.flatMap_cons, List.drop_left]

theorem flatMap_range_block {α : Type} (B : Nat → List α) {j n : Nat} (h : j < n) :
    (((List.range n).flatMap B).drop (sumTo (fun k => (B k).length) j)).take
      (B j).length = B j := by
  rw [flatMap_range_drop B (Nat.le_of_lt h)]
  have hnj : n - j = (n - (j + 1)) + 1 := by omega
  rw [hnj, List.range'_succ, List.flatMap_cons, List.take_left]

theorem getD_drop_add {α : Type} (l : List α) (d : α) (a i : Nat) :
    l.getD (a + i) d = (l.drop a).getD i d := by
  rw [List.getD_eq_getElem?_getD, List.getD_eq_getElem?_getD, List.getElem?_drop]

theorem getD_flatMap_range {α : Type} (B : Nat → List α) (d : α) {j n i : Nat}
    (hj : j < n) (hi : i < (B j).length) :
    ((List.range n).flatMap B).getD (sumTo (fun k => (B k).length) j + i) d
      = (B j).getD i d := by
  rw [getD_drop_add, flatMap_range_drop B (Nat.le_of_lt hj)]
  have hnj : n - j = (n - (j + 1)) + 1 := by omega
  rw [hnj, List.range'_succ, List.flatMap_cons]
  rw [List.getD_eq_getElem?_getD, List.getD_eq_getElem?_getD, List.getElem?_append,
    if_pos hi]

/-! ## Contiguous owner blocks inside a monotonically classified list -/

theorem filter_lt_eq_takeWhile (f : Nat → Nat) (c : Nat) :
    ∀ l : List Nat, l.Pairwise (fun a b => f a ≤ f b) →
      l.filter (fun x => decide (f x < c)) = l.takeWhile (fun x => decide (f x < c)) := by
  intro l
  induction l with
  | nil => intro _; rfl
  | cons a t ih =>
    intro h
    rcases List.pairwise_cons.mp h with ⟨ha, ht⟩
    by_cases hc : f a < c
    · have hb : decide (f a < c) = true := by simpa using hc
      rw [List.filter_cons, List.takeWhile_cons, if_pos hb, if_pos hb, ih ht]
    · have hb : ¬ decide (f a < c) = true := by simpa using hc
      rw [List.filter_cons, List.takeWhile_cons, if_neg hb, if_neg hb]
      exact List.filter_eq_nil_iff.mpr (fun x hx => by
        simp only [decide_eq_true_eq]
        have := ha x hx
        omega)

theorem dropWhile_lt_eq_filter (f : Nat → Nat) (c : Nat) :
    ∀ l : List Nat, l.Pairwise (fun a b => f a ≤ f b) →
      l.dropWhile (fun x => decide (f x < c)) = l.filter (fun x => decide (c ≤ f x)) := by
  intro l
  induction l with
  | nil => intro _; rfl
  | cons a t ih =>
    intro h
    rcases List.pairwise_cons.mp h with ⟨ha, ht⟩
    by_cases hc : f a < c
    · have hb : decide (f a < c) = true := by simpa using hc
      have hb2 : ¬ decide (c ≤ f a) = true := by
        simp only [decide_eq_true_eq]; omega
      rw [List.dropWhile_cons, List.filter_cons, if_pos hb, if_neg hb2, ih ht]
    · have hb : ¬ decide (f a < c) = true := by simpa using hc
      have hb2 : decide (c ≤ f a) = true := by
        simp only [decide_eq_true_eq]; omega
      rw [List.dropWhile_cons, List.filter_cons, if_neg hb, if_pos hb2]
      rw [List.filter_eq_self.mpr (fun x hx => by
        simp only [decide_eq_true_eq]
        have := ha x hx
        omega)]

theorem flatMap_filter_eq (f : Nat → Nat) :
    ∀ (n : Nat) (l : List Nat), l.Pairwise (fun a b => f a ≤ f b) →
      (∀ x, x ∈ l → f x < n) →
      (List.range n).flatMap (fun k => l.filter (fun x => decide (f x = k))) = l := by
  intro n
  induction n with
  | zero =>
    intro l _ hb
    cases l with
    | nil => rfl
    | cons a t => exact absurd (hb a (by simp)) (by omega)
  | succ n ih =>
    intro l hp hb
    have e1 := filter_lt_eq_takeWhile f n l hp
    have e2 := dropWhile_lt_eq_filter f n l hp
    have hsplit : l.filter (fun x => decide (f x < n))
        ++ l.filter (fun x => decide (n ≤ f x)) = l := by
      rw [e1, ← e2, List.takeWhile_append_dropWhile]
    rw [List.range_succ, List.flatMap_append]
    have htail : l.filter (fun x => decide (f x = n))
        = l.filter (fun x => decide (n ≤ f x)) := by
      apply List.filter_congr
      intro x hx
      have := hb x hx
      by_cases h : f x = n
      · simp [h]
      · have : ¬ n ≤ f x := by omega
        simp [h, this]
    have hhead : (List.range n).flatMap (fun k => l.filter (fun x => decide (f x = k)))
        = l.filter (fun x => decide (f x < n)) := by
      have hfk : ∀ k, k ∈ List.range n →
          l.filter (fun x => decide (f x = k))
            = (l.filter (fun x => decide (f x < n))).filter (fun x => decide (f x = k)) := by
        intro k hk
        rw [List.mem_range] at hk
        rw [List.filter_filter]
        apply List.filter_congr
        intro x hx
        by_cases h : f x = k
        · simp [h, hk]
        · simp [h]
      rw [flatMap_congr hfk]
      exact ih _ (List.Pairwise.sublist (List.filter_sublist _) hp)
        (fun x hx => by
          rcases List.mem_filter.mp hx with ⟨_, hfx⟩
          simpa using hfx)
    rw [hhead]
    simp only [List.flatMap_cons, List.flatMap_nil, List.append_nil]
    rw [htail, hsplit]

/-! ## Counting below a threshold -/

theorem countP_mono_lt_succ (f : Nat → Nat) (k : Nat) : ∀ l : List Nat,
    l.countP (fun x => decide (f x < k + 1))
      = l.countP (fun x => decide (f x < k)) + l.countP (fun x => decide (f x = k)) := by
  intro l
  induction l with
  | nil => rfl
  | cons a t ih =>
    simp only [List.countP_cons, ih, decide_eq_true_eq]
    by_cases h1 : f a < k
    · have h2 : f a < k + 1 := by omega
      have h3 : ¬ f a = k := by omega
      simp [h1, h2, h3]; omega
    · by_cases h3 : f a = k
      · have h2 : f a < k + 1 := by omega
        simp [h1, h2, h3]; omega
      · have h2 : ¬ f a < k + 1 := by omega
        simp [h1, h2, h3]

theorem countP_lt_eq_sumTo (f : Nat → Nat) (l : List Nat) : ∀ q : Nat,
    l.countP (fun x => decide (f x < q))
      = sumTo (fun k => (l.filter (fun x => decide (f x = k))).length) q := by
  intro q
  induction q with
  | zero =>
    simp only [sumTo]
    exact List.countP_eq_zero.mpr (fun a _ => by simp)
  | succ q ih =>
    rw [countP_mono_lt_succ, ih]
    simp only [sumTo]
    rw [List.countP_eq_length_filter]

theorem countP_lt_congr_of_least {l : List Nat} {g h : Nat} (hg : g ≤ h)
    (hleast : ∀ x, x ∈ l → g ≤ x → h ≤ x) :
    l.countP (fun x => decide (x < g)) = l.countP (fun x => decide (x < h)) := by
  rw [List.countP_eq_length_filter, List.countP_eq_length_filter]
  apply congrArg List.length
  apply List.filter_congr
  intro x hx
  by_cases hc : x < g
  · have : x < h := by omega
    simp [hc, this]
  · have : ¬ x < h := by
      intro hxh
      have := hleast x hx (by omega)
      omega
    simp [hc, this]

theorem sorted_getD_countP {h : Nat} (d : Nat) : ∀ {l : List Nat},
    l.Sorted (· < ·) → h ∈ l →
    l.getD (l.countP (fun x => decide (x < h))) d = h := by
  intro l
  induction l with
  | nil => intro _ hm; cases hm
  | cons a t ih =>
    intro hs hm
    rcases List.mem_cons.mp hm with rfl | hmt
    · rw [List.countP_cons_of_neg _ _ (by simp)]
      have h2 : t.countP (fun x => decide (x < h)) = 0 := by
        apply List.countP_eq_zero.mpr
        intro x hx
        have := List.rel_of_sorted_cons hs x hx
        simp only [decide_eq_true_eq]
        omega
      rw [h2, List.getD_cons_zero]
    · have hlt : a < h := List.rel_of_sorted_cons hs h hmt
      rw [List.countP_cons_of_pos _ _ (by simpa using hlt), List.getD_cons_succ]
      exact ih (List.sorted_cons.mp hs).2 hmt

theorem countP_lt_length_of_mem {l : List Nat} {h : Nat} (hm : h ∈ l) :
    l.countP (fun x => decide (x < h)) < l.length := by
  rcases Nat.lt_or_ge (l.countP (fun x => decide (x < h))) l.length with hc | hc
  · exact hc
  · have heq : l.countP (fun x => decide (x < h)) = l.length :=
      Nat.le_antisymm (List.countP_le_length _) hc
    have := List.countP_eq_length.mp heq h hm
    simp at this

/-! ## Consequences of mesh validity -/

theorem nodeBegin_mono (m : Mesh) (hV : m.ValidPartition) :
    ∀ {i j : Nat}, i ≤ j → j ≤ m.size → m.nodeBegin i ≤ m.nodeBegin j := by
  intro i j hij hj
  induction j with
  | zero =>
    have : i = 0 := by omega
    subst this; exact Nat.le_refl _
  | succ j ih =>
    rcases Nat.lt_or_ge i (j + 1) with h | h
    · exact Nat.le_trans (ih (by omega) (by omega)) (hV.2.1 j (by omega))
    · have : i = j + 1 := by omega
      subst this; exact Nat.le_refl _

theorem findProc_mono (m : Mesh) (hV : m.ValidPartition) {a b : Nat}
    (ha : a < m.nodeBegin m.size) (hb : b < m.nodeBegin m.size) (hab : a ≤ b) :
    m.findProc a ≤ m.findProc b := by
  rcases le_or_lt (m.findProc a) (m.findProc b) with h | h
  · exact h
  · exfalso
    obtain ⟨hA1, hA2, hA3⟩ := hV.2.2 a ha
    obtain ⟨hB1, hB2, hB3⟩ := hV.2.2 b hb
    have h2 : m.nodeBegin (m.findProc b + 1) ≤ m.nodeBegin (m.findProc a) :=
      nodeBegin_mono m hV (by omega) (by omega)
    omega

theorem sortedHaloNodes_props (m : Mesh) (hV : m.Valid) {r : Nat} (hr : r < m.size)
    {g : Nat} (hg : g ∈ sortedHaloNodes m r) :
    g < m.nodeBegin m.size ∧ m.findProc g ≠ r := by
  rcases mem_haloCandidates.mp (mem_sortedHaloNodes.mp hg) with ⟨href, hne⟩
  refine ⟨?_, hne⟩
  rcases href with ⟨e, he, c, hc, rfl⟩ | ⟨e, he, c, hc, rfl⟩
  · exact ((hV.2 r hr).1 (e * 3 + c) (by omega)).2
  · exact ((hV.2 r hr).2 (e * 4 + c) (by omega)).2

theorem sortedHaloNodes_pairwise_owner (m : Mesh) (hV : m.Valid) {r : Nat}
    (hr : r < m.size) :
    (sortedHaloNodes m r).Pairwise (fun a b => m.findProc a ≤ m.findProc b) := by
  refine List.Pairwise.imp_of_mem ?_ (sortedHaloNodes_sorted m r)
  intro a b hma hmb hab
  exact findProc_mono m hV.1 (sortedHaloNodes_props m hV hr hma).1
    (sortedHaloNodes_props m hV hr hmb).1 (Nat.le_of_lt hab)

theorem sortedHaloNodes_flatMap_filter (m : Mesh) (hV : m.Valid) {r : Nat}
    (hr : r < m.size) :
    (List.range m.size).flatMap
        (fun k => (sortedHaloNodes m r).filter (fun g => decide (m.findProc g = k)))
      = sortedHaloNodes m r :=
  flatMap_filter_eq _ _ _ (sortedHaloNodes_pairwise_owner m hV hr)
    (fun x hx => (hV.1.2.2 x (sortedHaloNodes_props m hV hr hx).1).1)

theorem numNodesToReceive_fun_eq (m : Mesh) (r : Nat) :
    numNodesToReceive m r
      = fun k => ((sortedHaloNodes m r).filter (fun g => decide (m.findProc g = k))).length :=
  rfl

theorem numHaloNodes_eq_sumTo (m : Mesh) (hV : m.Valid) {r : Nat} (hr : r < m.size) :
    sumTo (numNodesToReceive m r) m.size = numHaloNodes m r := by
  have h := congrArg List.length (sortedHaloNodes_flatMap_filter m hV hr)
  rw [length_flatMap_range] at h
  rw [numNodesToReceive_fun_eq]
  exact h

/-- Core of the request phase: inside the sorted halo list of rank r,
the ids owned by rank p stand contiguously at the block selected by the
prefix-sum displacement and count of rank p. -/
theorem sortedHaloNodes_block (m : Mesh) (hV : m.Valid) {r p : Nat}
    (hr : r < m.size) (hp : p < m.size) :
    ((sortedHaloNodes m r).drop (nodesToReceiveDispl m r p)).take
        (numNodesToReceive m r p)
      = (sortedHaloNodes m r).filter (fun g => decide (m.findProc g = p)) := by
  have hblock := flatMap_range_block
    (fun k => (sortedHaloNodes m r).filter (fun g => decide (m.findProc g = k))) hp
  rw [sortedHaloNodes_flatMap_filter m hV hr] at hblock
  rw [show nodesToReceiveDispl m r p
      = sumTo (fun k =>
          ((sortedHaloNodes m r).filter (fun g => decide (m.findProc g = k))).length) p
    from by rw [nodesToReceiveDispl, numNodesToReceive_fun_eq]]
  exact hblock

theorem halo_owner_le (m : Mesh) (hV : m.Valid) {r : Nat} (hr : r < m.size)
    {x y : Nat} (hx : x ∈ sortedHaloNodes m r) (hy : y ∈ sortedHaloNodes m r)
    (hxy : x ≤ y) : m.findProc x ≤ m.findProc y :=
  findProc_mono m hV.1 (sortedHaloNodes_props m hV hr hx).1
    (sortedHaloNodes_props m hV hr hy).1 hxy

/-- Decomposition of the lower_bound offset of a halo node h: it falls
inside the receive block of the owner of h, at the position of h inside
that block. -/
theorem offset_decompose (m : Mesh) (hV : m.Valid) {r : Nat} (hr : r < m.size)
    {h : Nat} (hm : h ∈ sortedHaloNodes m r) :
    (sortedHaloNodes m r).countP (fun x => decide (x < h))
      = nodesToReceiveDispl m r (m.findProc h)
        + ((sortedHaloNodes m r).filter
            (fun x => decide (m.findProc x = m.findProc h))).countP
            (fun x => decide (x < h))
    ∧ ((sortedHaloNodes m r).filter
          (fun x => decide (m.findProc x = m.findProc h))).countP
          (fun x => decide (x < h)) < numNodesToReceive m r (m.findProc h) := by
  have hpw := sortedHaloNodes_pairwise_owner m hV hr
  constructor
  · have e1 := filter_lt_eq_takeWhile m.findProc (m.findProc h) (sortedHaloNodes m r) hpw
    have e2 := dropWhile_lt_eq_filter m.findProc (m.findProc h) (sortedHaloNodes m r) hpw
    have hsplit : (sortedHaloNodes m r).filter
          (fun x => decide (m.findProc x < m.findProc h))
        ++ (sortedHaloNodes m r).filter
          (fun x => decide (m.findProc h ≤ m.findProc x)) = sortedHaloNodes m r := by
      rw [e1, ← e2, List.takeWhile_append_dropWhile]
    conv_lhs => rw [← hsplit]
    rw [List.countP_append]
    congr 1
    · have hall : ∀ x ∈ (sortedHaloNodes m r).filter
          (fun x => decide (m.findProc x < m.findProc h)),
          (fun x => decide (x < h)) x = true := by
        intro x hx
        rcases List.mem_filter.mp hx with ⟨hxS, hxq⟩
        simp only [decide_eq_true_eq] at hxq ⊢
        rcases Nat.lt_or_ge x h with hc | hc
        · exact hc
        · exact absurd (halo_owner_le m hV hr hm hxS hc) (by omega)
      rw [List.countP_eq_length.mpr hall, ← List.countP_eq_length_filter,
        countP_lt_eq_sumTo]
      rfl
    · rw [List.countP_filter, List.countP_filter]
      rw [List.countP_eq_length_filter, List.countP_eq_length_filter]
      apply congrArg List.length
      apply List.filter_congr
      intro x hxS
      by_cases hxh : x < h
      · have hle : m.findProc x ≤ m.findProc h :=
          halo_owner_le m hV hr hxS hm (by omega)
        by_cases heq : m.findProc x = m.findProc h
        · simp [hxh, heq]
        · have hnle : ¬ m.findProc h ≤ m.findProc x := by omega
          simp [hxh, heq, hnle]
      · simp [hxh]
  · have hmem : h ∈ (sortedHaloNodes m r).filter
        (fun x => decide (m.findProc x = m.findProc h)) :=
      List.mem_filter.mpr ⟨hm, by simp⟩
    exact countP_lt_length_of_mem hmem

/-! ## The exchanged buffers, expressed by owner blocks -/

theorem nodesToSend_eq (m : Mesh) (hV : m.Valid) {r : Nat} (hr : r < m.size) :
    nodesToSend m r = (List.range m.size).flatMap
      (fun p => (sortedHaloNodes m p).filter (fun g => decide (m.findProc g = r))) := by
  unfold nodesToSend
  apply flatMap_congr
  intro p hp
  rw [List.mem_range] at hp
  exact sortedHaloNodes_block m hV hp hr

theorem sendSeg_eq (m : Mesh) (hV : m.Valid) {r p : Nat} (hr : r < m.size)
    (hp : p < m.size) :
    sendSeg m r p
      = (sortedHaloNodes m p).filter (fun g => decide (m.findProc g = r)) := by
  unfold sendSeg
  rw [nodesToSend_eq m hV hr]
  exact flatMap_range_block
    (fun q => (sortedHaloNodes m q).filter (fun g => decide (m.findProc g = r))) hp

/-- Variant of the block read that takes the block lengths as a
separate function. -/
theorem getD_flatMap_range_len {α : Type} (B : Nat → List α) (len : Nat → Nat)
    {n : Nat} (hlen : ∀ k, k < n → (B k).length = len k) (d : α) {j i : Nat}
    (hj : j < n) (hi : i < len j) :
    ((List.range n).flatMap B).getD (sumTo len j + i) d = (B j).getD i d := by
  have h1 : sumTo len j = sumTo (fun k => (B k).length) j :=
    sumTo_congr j (fun k hk => (hlen k (by omega)).symm)
  rw [h1]
  exact getD_flatMap_range B d hj (by rw [hlen j hj]; exact hi)

theorem getD_map_of_lt {α β : Type} (f : α → β) {l : List α} {i : Nat}
    (h : i < l.length) (d : α) (e : β) :
    (l.map f).getD i e = f (l.getD i d) := by
  rw [List.getD_eq_getElem?_getD, List.getElem?_map, List.getD_eq_getElem?_getD,
    List.getElem?_eq_getElem h]
  simp

/-- Block structure of data_to_send: the slice addressed to requester p
holds, field-major, the values of exactly the halo nodes of p that the
sender owns, each read at its local offset. -/
theorem dataToSend_block (m : Mesh) (hV : m.Valid) {r p : Nat} (hr : r < m.size)
    (hp : p < m.size) :
    ((dataToSend m r).drop (valuesToSendDispl m r p)).take (numValuesToSend m r p)
      = (List.range m.nFields).flatMap (fun v =>
          ((sortedHaloNodes m p).filter (fun g => decide (m.findProc g = r))).map
            (fun g => m.localData r v (g - m.nodeBegin r))) := by
  have hBlen : ∀ q, q < m.size →
      ((List.range m.nFields).flatMap (fun v =>
        (sendSeg m r q).map (fun g => m.localData r v (g - m.nodeBegin r)))).length
      = numNodesToSend m r q * m.nFields := by
    intro q hq
    rw [length_flatMap_range]
    have hmapl : (fun v => ((sendSeg m r q).map
          (fun g => m.localData r v (g - m.nodeBegin r))).length)
        = fun _ => numNodesToSend m r q := by
      funext v
      rw [List.length_map, sendSeg_eq m hV hr hq]
      rfl
    rw [hmapl, sumTo_const, Nat.mul_comm]
  have e1 : valuesToSendDispl m r p
      = sumTo (fun q => ((List.range m.nFields).flatMap (fun v =>
          (sendSeg m r q).map (fun g => m.localData r v (g - m.nodeBegin r)))).length) p := by
    rw [sumTo_congr p (fun k hk => hBlen k (by omega)),
      sumTo_mul, valuesToSendDispl, nodesToSendDispl]
  have e2 : numValuesToSend m r p
      = ((List.range m.nFields).flatMap (fun v =>
          (sendSeg m r p).map (fun g => m.localData r v (g - m.nodeBegin r)))).length := by
    rw [hBlen p hp]; rfl
  unfold dataToSend
  rw [e1, e2]
  rw [flatMap_range_block
    (fun q => (List.range m.nFields).flatMap (fun v =>
      (sendSeg m r q).map (fun g => m.localData r v (g - m.nodeBegin r)))) hp]
  apply flatMap_congr
  intro v _
  rw [sendSeg_eq m hV hr hp]

/-- Received halo data: block per owner rank, field-major inside each
block, value of the i-th halo node owned by that rank at field v at
position block-count times v plus i. -/
theorem haloVarData_eq (m : Mesh) (hV : m.Valid) {r : Nat} (hr : r < m.size) :
    haloVarData m r = (List.range m.size).flatMap (fun p =>
      (List.range m.nFields).flatMap (fun v =>
        ((sortedHaloNodes m r).filter (fun g => decide (m.findProc g = p))).map
          (fun g => m.localData p v (g - m.nodeBegin p)))) := by
  unfold haloVarData
  apply flatMap_congr
  intro p hp
  rw [List.mem_range] at hp
  have : numValuesToReceive m r p = numValuesToSend m p r := rfl
  rw [this]
  exact dataToSend_block m hV hp hr

/-! ## The halo scan loop -/

theorem haloScan_found (m : Mesh) (r v offset q : Nat) :
    ∀ (fuel iRank : Nat), iRank ≤ q → q < iRank + fuel →
      nodesToReceiveDispl m r q ≤ offset →
      offset < nodesToReceiveDispl m r q + numNodesToReceive m r q →
      haloScan m r v offset fuel iRank (nodesToReceiveDispl m r iRank)
        = some ((haloVarData m r).getD
            (valuesToReceiveDispl m r q + numNodesToReceive m r q * v
              + (offset - nodesToReceiveDispl m r q)) 0) := by
  intro fuel
  induction fuel with
  | zero =>
    intro iRank h1 h2 h3 h4
    exact absurd h2 (by omega)
  | succ fuel ih =>
    intro iRank h1 h2 h3 h4
    rcases Nat.eq_or_lt_of_le h1 with heq | hlt
    · subst heq
      simp only [haloScan]
      rw [if_pos ⟨h3, h4⟩]
    · simp only [haloScan]
      have hstep : nodesToReceiveDispl m r (iRank + 1)
          = nodesToReceiveDispl m r iRank + numNodesToReceive m r iRank := rfl
      have hmono : nodesToReceiveDispl m r (iRank + 1) ≤ nodesToReceiveDispl m r q :=
        sumTo_le_of_le _ hlt
      rw [if_neg (by omega)]
      rw [← hstep]
      exact ih (iRank + 1) hlt (by omega) h3 h4

theorem haloScan_none (m : Mesh) (r v offset : Nat) :
    ∀ (fuel iRank : Nat),
      sumTo (numNodesToReceive m r) (iRank + fuel) ≤ offset →
      haloScan m r v offset fuel iRank (nodesToReceiveDispl m r iRank) = none := by
  intro fuel
  induction fuel with
  | zero => intro iRank _; rfl
  | succ fuel ih =>
    intro iRank h
    simp only [haloScan]
    have hstep : nodesToReceiveDispl m r (iRank + 1)
        = nodesToReceiveDispl m r iRank + numNodesToReceive m r iRank := rfl
    have hge : sumTo (numNodesToReceive m r) (iRank + 1) ≤ offset :=
      Nat.le_trans (sumTo_le_of_le _ (by omega)) h
    have hge2 : nodesToReceiveDispl m r (iRank + 1) ≤ offset := hge
    rw [if_neg (by omega)]
    rw [← hstep]
    exact ih (iRank + 1) (by
      have : iRank + 1 + fuel = iRank + (fuel + 1) := by omega
      rw [this]
      exact h)

/-! ## The central halo lookup theorem -/

/-- GetHaloNodeValue on any query g resolves to the field value of the
least halo node greater than or equal to g, read from the halo data of
the owning rank of that node. -/
theorem getHaloNodeValue_found (m : Mesh) (hV : m.Valid) {r g h v : Nat}
    (hr : r < m.size) (hv : v < m.nFields) (hm : h ∈ sortedHaloNodes m r)
    (hg : g ≤ h) (hleast : ∀ x, x ∈ sortedHaloNodes m r → g ≤ x → h ≤ x) :
    GetHaloNodeValue m r g v
      = some (m.localData (m.findProc h) v (h - m.nodeBegin (m.findProc h))) := by
  obtain ⟨hsum, hlt⟩ := offset_decompose m hV hr hm
  have hq : m.findProc h < m.size :=
    (hV.1.2.2 h (sortedHaloNodes_props m hV hr hm).1).1
  have hoff : lowerBoundIdx (sortedHaloNodes m r) g
      = nodesToReceiveDispl m r (m.findProc h)
        + ((sortedHaloNodes m r).filter
            (fun x => decide (m.findProc x = m.findProc h))).countP
            (fun x => decide (x < h)) := by
    unfold lowerBoundIdx
    rw [countP_lt_congr_of_least hg hleast, hsum]
  unfold GetHaloNodeValue
  rw [hoff]
  show haloScan m r v _ m.size 0 (nodesToReceiveDispl m r 0) = _
  rw [haloScan_found m r v _ (m.findProc h) m.size 0 (Nat.zero_le _) (by omega)
    (by omega) (by omega)]
  have hsub : nodesToReceiveDispl m r (m.findProc h)
        + ((sortedHaloNodes m r).filter
            (fun x => decide (m.findProc x = m.findProc h))).countP
            (fun x => decide (x < h))
        - nodesToReceiveDispl m r (m.findProc h)
      = ((sortedHaloNodes m r).filter
          (fun x => decide (m.findProc x = m.findProc h))).countP
          (fun x => decide (x < h)) := by omega
  rw [hsub]
  apply congrArg some
  rw [haloVarData_eq m hV hr]
  have hOlen : ∀ p, ((List.range m.nFields).flatMap (fun v' =>
      ((sortedHaloNodes m r).filter (fun g' => decide (m.findProc g' = p))).map
        (fun g' => m.localData p v' (g' - m.nodeBegin p)))).length
      = numNodesToReceive m r p * m.nFields := by
    intro p
    rw [length_flatMap_range]
    have hmapl : (fun v' => (((sortedHaloNodes m r).filter
          (fun g' => decide (m.findProc g' = p))).map
          (fun g' => m.localData p v' (g' - m.nodeBegin p))).length)
        = fun _ => numNodesToReceive m r p := by
      funext v'
      rw [List.length_map]
      rfl
    rw [hmapl, sumTo_const, Nat.mul_comm]
  have hidx : valuesToReceiveDispl m r (m.findProc h)
        + numNodesToReceive m r (m.findProc h) * v
        + ((sortedHaloNodes m r).filter
            (fun x => decide (m.findProc x = m.findProc h))).countP
            (fun x => decide (x < h))
      = sumTo (fun p => numNodesToReceive m r p * m.nFields) (m.findProc h)
        + (numNodesToReceive m r (m.findProc h) * v
          + ((sortedHaloNodes m r).filter
              (fun x => decide (m.findProc x = m.findProc h))).countP
              (fun x => decide (x < h))) := by
    rw [sumTo_mul, valuesToReceiveDispl, nodesToReceiveDispl]
    omega
  rw [hidx]
  have hin : numNodesToReceive m r (m.findProc h) * v
        + ((sortedHaloNodes m r).filter
            (fun x => decide (m.findProc x = m.findProc h))).countP
            (fun x => decide (x < h))
      < numNodesToReceive m r (m.findProc h) * m.nFields := by
    have h1 : numNodesToReceive m r (m.findProc h) * v
          + ((sortedHaloNodes m r).filter
              (fun x => decide (m.findProc x = m.findProc h))).countP
              (fun x => decide (x < h))
        < numNodesToReceive m r (m.findProc h) * (v + 1) := by
      rw [Nat.mul_succ]; omega
    exact Nat.lt_of_lt_of_le h1 (Nat.mul_le_mul_left _ hv)
  rw [getD_flatMap_range_len _ (fun p => numNodesToReceive m r p * m.nFields)
    (fun k _ => hOlen k) 0 hq hin]
  have hidx2 : numNodesToReceive m r (m.findProc h) * v
        + ((sortedHaloNodes m r).filter
            (fun x => decide (m.findProc x = m.findProc h))).countP
            (fun x => decide (x < h))
      = sumTo (fun _ => numNodesToReceive m r (m.findProc h)) v
        + ((sortedHaloNodes m r).filter
            (fun x => decide (m.findProc x = m.findProc h))).countP
            (fun x => decide (x < h)) := by
    rw [sumTo_const, Nat.mul_comm]
  rw [hidx2]
  rw [getD_flatMap_range_len _ (fun _ => numNodesToReceive m r (m.findProc h))
    (fun k _ => by rw [List.length_map]; rfl) 0 hv hlt]
  rw [getD_map_of_lt _ hlt 0]
  rw [sorted_getD_countP 0
    (List.Pairwise.sublist (List.filter_sublist _) (sortedHaloNodes_sorted m r))
    (List.mem_filter.mpr ⟨hm, by simp⟩)]

/-- When every halo node is strictly below the query, the scan runs off
the end and GetHaloNodeValue signals the fatal lookup error. -/
theorem getHaloNodeValue_none (m : Mesh) (hV : m.Valid) {r g : Nat} (v : Nat)
    (hr : r < m.size) (hall : ∀ x, x ∈ sortedHaloNodes m r → x < g) :
    GetHaloNodeValue m r g v = none := by
  unfold GetHaloNodeValue
  have hoff : lowerBoundIdx (sortedHaloNodes m r) g = numHaloNodes m r := by
    unfold lowerBoundIdx numHaloNodes
    exact List.countP_eq_length.mpr (fun a ha => by simpa using hall a ha)
  rw [hoff]
  show haloScan m r v _ m.size 0 (nodesToReceiveDispl m r 0) = none
  apply haloScan_none
  rw [Nat.zero_add, numHaloNodes_eq_sumTo m hV hr]

/-! ## Claim theorems: halo resolution -/

/-- C8: sorted_halo_nodes of rank r is sorted strictly ascending
(hence duplicate-free) and holds exactly the global node ids referenced
by the locally owned triangle and quadrilateral elements of r whose
owner by FindProcessor is another rank. -/
theorem sorted_halo_set_invariant (m : Mesh) (r : Nat) :
    (sortedHaloNodes m r).Sorted (· < ·)
    ∧ (∀ g, g ∈ sortedHaloNodes m r ↔
        (((∃ e, e < m.nTria r ∧ ∃ c, c < 3 ∧ m.triaConn r (e * 3 + c) - 1 = g)
          ∨ (∃ e, e < m.nQuad r ∧ ∃ c, c < 4 ∧ m.quadConn r (e * 4 + c) - 1 = g))
        ∧ m.findProc g ≠ r)) :=
  ⟨sortedHaloNodes_sorted m r, fun _ => mem_sortedHaloNodes.trans mem_haloCandidates⟩

/-- C9: inside the sorted halo list of rank r the ids owned by rank p
form one contiguous block, sitting exactly at the prefix-sum receive
displacement with the counted length; consequently the request-phase
Alltoallv delivers to each owning rank precisely the ids that rank
owns, in requester order. -/
theorem request_phase_contiguous_blocks (m : Mesh) (hV : m.Valid) (r p : Nat)
    (hr : r < m.size) (hp : p < m.size) :
    ((sortedHaloNodes m r).drop (nodesToReceiveDispl m r p)).take
        (numNodesToReceive m r p)
      = (sortedHaloNodes m r).filter (fun g => decide (m.findProc g = p))
    ∧ nodesToSend m p = (List.range m.size).flatMap
        (fun q => (sortedHaloNodes m q).filter (fun g => decide (m.findProc g = p)))
    ∧ (∀ g, g ∈ nodesToSend m p → m.findProc g = p) := by
  refine ⟨sortedHaloNodes_block m hV hr hp, nodesToSend_eq m hV hp, ?_⟩
  intro g hg
  rw [nodesToSend_eq m hV hp] at hg
  simp only [List.mem_flatMap, List.mem_filter, List.mem_range,
    decide_eq_true_eq] at hg
  obtain ⟨q, _, _, hgp⟩ := hg
  exact hgp

/-- Witness for C9 on the demo mesh: the rank-1 block of the rank-0
halo list is the whole list, and rank 1 receives exactly its own
nodes. -/
theorem request_phase_contiguous_blocks_witness :
    ((sortedHaloNodes demoMesh 0).drop (nodesToReceiveDispl demoMesh 0 1)).take
        (numNodesToReceive demoMesh 0 1)
      = (sortedHaloNodes demoMesh 0).filter
          (fun g => decide (demoMesh.findProc g = 1))
    ∧ nodesToSend demoMesh 1 = (List.range demoMesh.size).flatMap
        (fun q => (sortedHaloNodes demoMesh q).filter
          (fun g => decide (demoMesh.findProc g = 1)))
    ∧ (∀ g, g ∈ nodesToSend demoMesh 1 → demoMesh.findProc g = 1) :=
  request_phase_contiguous_blocks demoMesh (by decide) 0 1 (by decide) (by decide)

/-- C1: halo completeness.  After the exchange, for every corner node
g of a locally owned triangle or quadrilateral element of rank r whose
owner is another rank, and every field index v below 3, the halo
lookup succeeds and returns exactly the field value
GetData(v, g - GetNodeBegin(FindProcessor(g))) held by the owning
rank. -/
theorem halo_completeness (m : Mesh) (hV : m.Valid) (r g v : Nat) (hr : r < m.size)
    (href : (∃ e, e < m.nTria r ∧ ∃ c, c < 3 ∧ m.triaConn r (e * 3 + c) - 1 = g)
      ∨ (∃ e, e < m.nQuad r ∧ ∃ c, c < 4 ∧ m.quadConn r (e * 4 + c) - 1 = g))
    (hhalo : m.findProc g ≠ r) (hv : v < 3) (hF : 3 ≤ m.nFields) :
    GetHaloNodeValue m r g v
      = some (m.localData (m.findProc g) v (g - m.nodeBegin (m.findProc g))) := by
  have hmem : g ∈ sortedHaloNodes m r :=
    mem_sortedHaloNodes.mpr (mem_haloCandidates.mpr ⟨href, hhalo⟩)
  exact getHaloNodeValue_found m hV hr (by omega) hmem (Nat.le_refl g)
    (fun x _ hx => hx)

/-- Witness for C1 on the demo mesh: the halo corner node 4 of the
rank-0 triangle resolves to the value held by rank 1. -/
theorem halo_completeness_witness :
    GetHaloNodeValue demoMesh 0 4 0
      = some (demoMesh.localData (demoMesh.findProc 4) 0
          (4 - demoMesh.nodeBegin (demoMesh.findProc 4))) :=
  halo_completeness demoMesh (by decide) 0 4 0 (by decide)
    (Or.inl ⟨0, by decide, 1, by decide, by decide⟩) (by decide) (by decide)
    (by decide)

/-- C2 counterexample: on the demo mesh the global id 2 is absent from
the halo data of rank 0, yet GetHaloNodeValue raises no error: it
silently returns the value 4 stored for halo node 4, which is not the
field value of node 2 (that value is 2). -/
theorem halo_lookup_silent_wrong_value :
    (2 ∉ sortedHaloNodes demoMesh 0)
    ∧ GetHaloNodeValue demoMesh 0 2 0 = some 4
    ∧ GetHaloNodeValue demoMesh 0 2 0
        ≠ some (demoMesh.localData (demoMesh.findProc 2) 0
            (2 - demoMesh.nodeBegin (demoMesh.findProc 2))) :=
  ⟨by decide, by decide, by decide⟩

/-- C2 (amended): GetHaloNodeValue terminates with the fatal error
exactly when the queried id exceeds every halo id; for any query at or
below some halo id, present in the halo set or not, it silently
returns the stored value of the least halo id greater than or equal to
the query. -/
theorem halo_lookup_error_only_past_end (m : Mesh) (hV : m.Valid) (r g v : Nat)
    (hr : r < m.size) (hv : v < m.nFields) :
    ((∀ x, x ∈ sortedHaloNodes m r → x < g) → GetHaloNodeValue m r g v = none)
    ∧ (∀ h, h ∈ sortedHaloNodes m r → g ≤ h →
        (∀ x, x ∈ sortedHaloNodes m r → g ≤ x → h ≤ x) →
        GetHaloNodeValue m r g v
          = some (m.localData (m.findProc h) v (h - m.nodeBegin (m.findProc h)))) :=
  ⟨fun hall => getHaloNodeValue_none m hV v hr hall,
   fun h hm hg hleast => getHaloNodeValue_found m hV hr hv hm hg hleast⟩

/-- Witness for the amended C2: on the demo mesh, querying 9 (above
every halo id) errors, and querying the absent id 2 returns the stored
value of its successor halo node 4. -/
theorem halo_lookup_error_only_past_end_witness :
    GetHaloNodeValue demoMesh 0 9 0 = none
    ∧ GetHaloNodeValue demoMesh 0 2 0
        = some (demoMesh.localData (demoMesh.findProc 4) 0
            (4 - demoMesh.nodeBegin (demoMesh.findProc 4))) :=
  ⟨(halo_lookup_error_only_past_end demoMesh (by decide) 0 9 0 (by decide)
      (by decide)).1 (by decide),
   (halo_lookup_error_only_past_end demoMesh (by decide) 0 2 0 (by decide)
      (by decide)).2 4 (by decide) (by decide) (by decide)⟩

/-- C5 counterexample: rank 1 of the demo mesh packs the two nodes
requested by rank 0 grouped by field, so the fields of one requested
node are strided, not contiguous; the node-major packing described by
the claim gives a different buffer. -/
theorem data_phase_packing_counterexample :
    dataToSend demoMesh 1 = [4, 5, 104, 105, 204, 205]
    ∧ dataToSendNodeMajor demoMesh 1 = [4, 104, 204, 5, 105, 205]
    ∧ dataToSend demoMesh 1 ≠ dataToSendNodeMajor demoMesh 1 :=
  ⟨by decide, by decide, by decide⟩

/-- C5 (amended): for each peer the owning rank reads every requested
node at local offset globalID - NodeBegin(localRank) and packs the
per-peer payload grouped by field index (all requested nodes for field
0, then field 1, and so on), the payload width being the requested
node count times the field count. -/
theorem data_phase_packing (m : Mesh) (hV : m.Valid) (r p : Nat)
    (hr : r < m.size) (hp : p < m.size) :
    ((dataToSend m r).drop (valuesToSendDispl m r p)).take (numValuesToSend m r p)
      = (List.range m.nFields).flatMap (fun v =>
          ((sortedHaloNodes m p).filter (fun g => decide (m.findProc g = r))).map
            (fun g => m.localData r v (g - m.nodeBegin r)))
    ∧ numValuesToSend m r p = numNodesToSend m r p * m.nFields :=
  ⟨dataToSend_block m hV hr hp, rfl⟩

/-- Witness for the amended C5 on the demo mesh. -/
theorem data_phase_packing_witness :
    ((dataToSend demoMesh 1).drop (valuesToSendDispl demoMesh 1 0)).take
        (numValuesToSend demoMesh 1 0)
      = (List.range demoMesh.nFields).flatMap (fun v =>
          ((sortedHaloNodes demoMesh 0).filter
            (fun g => decide (demoMesh.findProc g = 1))).map
            (fun g => demoMesh.localData 1 v (g - demoMesh.nodeBegin 1))) :=
  (data_phase_packing demoMesh (by decide) 1 0 (by decide) (by decide)).1

/-- C4: the buffer builder emits for every quadrilateral exactly the
two triangles over corner positions (0,1,3) then (1,2,3), in element
order, and each emitted triangle is processed by the same per-triangle
resolution as a native triangle element. -/
theorem quad_split_deterministic (m : Mesh) (r : Nat) :
    quadPart m r = (List.range (m.nQuad r)).flatMap (fun e =>
        triFacet m r (m.quadConn r (e * 4 + 0)) (m.quadConn r (e * 4 + 1))
            (m.quadConn r (e * 4 + 3))
          ++ triFacet m r (m.quadConn r (e * 4 + 1)) (m.quadConn r (e * 4 + 2))
            (m.quadConn r (e * 4 + 3)))
    ∧ triaPart m r = (List.range (m.nTria r)).flatMap (fun e =>
        triFacet m r (m.triaConn r (e * 3 + 0)) (m.triaConn r (e * 3 + 1))
          (m.triaConn r (e * 3 + 2))) := by
  constructor
  · unfold quadPart
    apply flatMap_congr
    intro e _
    simp [nodelist, triFacet]
  · unfold triaPart
    apply flatMap_congr
    intro e _
    simp [triFacet, show List.range 3 = [0, 1, 2] from rfl]

/-! ## The gathered buffer and the writer -/

theorem length_flatMap_range_const {α : Type} (B : Nat → List α) (c n : Nat)
    (h : ∀ k, k < n → (B k).length = c) :
    ((List.range n).flatMap B).length = n * c := by
  rw [length_flatMap_range, sumTo_congr n h, sumTo_const]

theorem length_triaPart (m : Mesh) (r : Nat) :
    (triaPart m r).length = m.nTria r * 9 := by
  unfold triaPart
  apply length_flatMap_range_const
  intro e _
  simp [show List.range 3 = [0, 1, 2] from rfl]

theorem length_quadPart (m : Mesh) (r : Nat) :
    (quadPart m r).length = m.nQuad r * 18 := by
  unfold quadPart
  apply length_flatMap_range_const
  intro e _
  simp [nodelist, show List.range 3 = [0, 1, 2] from rfl]

theorem length_bufSend (m : Mesh) (r : Nat) :
    (bufSend m r).length = nLocalTriaAll m r * 9 := by
  unfold bufSend nLocalTriaAll
  rw [List.length_append, length_triaPart, length_quadPart]
  ring

theorem le_foldr_max {l : List Nat} {x : Nat} (hx : x ∈ l) : x ≤ l.foldr max 0 := by
  induction l with
  | nil => cases hx
  | cons a t ih =>
    rcases List.mem_cons.mp hx with rfl | hx
    · exact le_max_left _ _
    · exact Nat.le_trans (ih hx) (le_max_right _ _)

theorem nLocalTriaAll_le_max (m : Mesh) {r : Nat} (hr : r < m.size) :
    nLocalTriaAll m r ≤ maxLocalTriaAll m :=
  le_foldr_max (List.mem_map.mpr ⟨r, List.mem_range.mpr hr, rfl⟩)

theorem length_bufSendPadded (m : Mesh) {r : Nat} (hr : r < m.size) :
    (bufSendPadded m r).length = maxLocalTriaAll m * 9 := by
  unfold bufSendPadded
  rw [List.length_append, List.length_replicate, length_bufSend]
  have h1 : nLocalTriaAll m r * 9 ≤ maxLocalTriaAll m * 9 :=
    Nat.mul_le_mul_right _ (nLocalTriaAll_le_max m hr)
  omega

/-- Reading the gathered buffer inside the true data region of the
segment of rank p lands in the unpadded send buffer of p: the padded
tail is never consulted. -/
theorem bufRecv_getD (m : Mesh) {p j : Nat} (hp : p < m.size)
    (hj : j < nLocalTriaAll m p * 9) :
    (bufRecv m).getD (p * (maxLocalTriaAll m * 3 * 3) + j) 0
      = (bufSend m p).getD j 0 := by
  unfold bufRecv
  rw [show p * (maxLocalTriaAll m * 3 * 3)
      = sumTo (fun _ => maxLocalTriaAll m * 3 * 3) p from
    (sumTo_const (maxLocalTriaAll m * 3 * 3) p).symm]
  have hlen : ∀ k, k < m.size →
      (bufSendPadded m k).length = maxLocalTriaAll m * 3 * 3 := by
    intro k hk
    rw [length_bufSendPadded m hk]
    ring
  have hjlt : j < maxLocalTriaAll m * 3 * 3 := by
    have h1 : nLocalTriaAll m p * 9 ≤ maxLocalTriaAll m * 9 :=
      Nat.mul_le_mul_right _ (nLocalTriaAll_le_max m hp)
    have h2 : maxLocalTriaAll m * 9 = maxLocalTriaAll m * 3 * 3 := by ring
    omega
  rw [getD_flatMap_range_len (bufSendPadded m)
    (fun _ => maxLocalTriaAll m * 3 * 3) hlen 0 hp hjlt]
  unfold bufSendPadded
  rw [List.getD_eq_getElem?_getD, List.getD_eq_getElem?_getD, List.getElem?_append,
    if_pos (by rw [length_bufSend]; exact hj)]

theorem bufferRecvNTriaAll_getD (m : Mesh) {p : Nat} (hp : p < m.size) :
    (bufferRecvNTriaAll m).getD p 0 = nLocalTriaAll m p := by
  unfold bufferRecvNTriaAll
  rw [getD_map_of_lt (nLocalTriaAll m) (by simpa using hp) 0]
  rw [show (List.range m.size).getD p 0 = p from by
    rw [List.getD_eq_getElem?_getD, List.getElem?_range hp]; rfl]

/-- The writer reads only the true data region of every gathered
segment: the emitted artifact equals the one assembled directly from
the unpadded send buffers. -/
theorem writeData_eq_writeClean (m : Mesh) :
    writeDataLines m MASTER_NODE = writeClean m := by
  unfold writeDataLines writeClean
  rw [if_pos rfl]
  congr 1
  congr 1
  apply flatMap_congr
  intro p hp
  rw [List.mem_range] at hp
  rw [bufferRecvNTriaAll_getD m hp]
  apply flatMap_congr
  intro e he
  rw [List.mem_range] at he
  unfold facetRecord facetClean
  have hmap : (List.range 3).map (fun pt =>
      StlLine.vertex
        ((bufRecv m).getD (p * (maxLocalTriaAll m * 3 * 3) + e * 3 * 3 + pt * 3) 0)
        ((bufRecv m).getD (p * (maxLocalTriaAll m * 3 * 3) + e * 3 * 3 + pt * 3 + 1) 0)
        ((bufRecv m).getD (p * (maxLocalTriaAll m * 3 * 3) + e * 3 * 3 + pt * 3 + 2) 0))
      = (List.range 3).map (fun pt =>
      StlLine.vertex ((bufSend m p).getD (e * 9 + pt * 3) 0)
        ((bufSend m p).getD (e * 9 + pt * 3 + 1) 0)
        ((bufSend m p).getD (e * 9 + pt * 3 + 2) 0)) := by
    apply List.map_congr_left
    intro pt hpt
    rw [List.mem_range] at hpt
    have e0 : p * (maxLocalTriaAll m * 3 * 3) + e * 3 * 3 + pt * 3
        = p * (maxLocalTriaAll m * 3 * 3) + (e * 9 + pt * 3) := by ring
    have e1 : p * (maxLocalTriaAll m * 3 * 3) + (e * 9 + pt * 3) + 1
        = p * (maxLocalTriaAll m * 3 * 3) + (e * 9 + pt * 3 + 1) := by ring
    have e2 : p * (maxLocalTriaAll m * 3 * 3) + (e * 9 + pt * 3) + 2
        = p * (maxLocalTriaAll m * 3 * 3) + (e * 9 + pt * 3 + 2) := by ring
    rw [e0, e1, e2, bufRecv_getD m hp (by omega), bufRecv_getD m hp (by omega),
      bufRecv_getD m hp (by omega)]
  rw [hmap]

theorem countP_flatMap_range {α : Type} (p : α → Bool) (B : Nat → List α) (n : Nat) :
    ((List.range n).flatMap B).countP p = sumTo (fun k => (B k).countP p) n := by
  induction n with
  | zero => simp [sumTo]
  | succ n ih =>
    rw [List.range_succ, List.flatMap_append, List.countP_append, ih]
    simp [sumTo]

theorem facetClean_countP (m : Mesh) (r e : Nat) :
    (facetClean m r e).countP (fun l => decide (l = StlLine.endFacet)) = 1 := by
  unfold facetClean
  simp [List.countP_append, List.countP_cons,
    show List.range 3 = [0, 1, 2] from rfl]

/-! ## Claim theorems: gather and serialization -/

/-- C3: conservation of facet counts.  Every gathered per-rank count
equals the local triangle count plus twice the local quad count; the
number of facet records in the artifact is the sum of these true
counts over the ranks; and the writer never reads the padded tail of
any gathered segment (the artifact equals the one assembled from the
unpadded buffers alone). -/
theorem facet_conservation (m : Mesh) :
    (∀ r, r < m.size →
      (bufferRecvNTriaAll m).getD r 0 = m.nTria r + 2 * m.nQuad r)
    ∧ countFacets (writeDataLines m MASTER_NODE)
        = sumTo (fun r => m.nTria r + 2 * m.nQuad r) m.size
    ∧ writeDataLines m MASTER_NODE = writeClean m := by
  refine ⟨?_, ?_, writeData_eq_writeClean m⟩
  · intro r hr
    rw [bufferRecvNTriaAll_getD m hr]
    unfold nLocalTriaAll
    omega
  · rw [writeData_eq_writeClean m]
    unfold writeClean countFacets
    rw [List.countP_append, List.countP_cons_of_neg _ _ (by simp),
      countP_flatMap_range]
    have hblk : ∀ r, ((List.range (nLocalTriaAll m r)).flatMap
        (fun e => facetClean m r e)).countP
        (fun l => decide (l = StlLine.endFacet)) = nLocalTriaAll m r := by
      intro r
      rw [countP_flatMap_range,
        sumTo_congr (nLocalTriaAll m r) (fun k _ => facetClean_countP m r k),
        sumTo_const, Nat.mul_one]
    rw [sumTo_congr m.size (fun k _ => hblk k),
      show List.countP (fun l => decide (l = StlLine.endFacet))
        [StlLine.endsolidFooter] = 0 from by decide, Nat.add_zero]
    exact sumTo_congr m.size (fun k _ => by unfold nLocalTriaAll; omega)

/-- Witness for C3 on the demo mesh. -/
theorem facet_conservation_witness :
    (bufferRecvNTriaAll demoMesh).getD 0 0
      = demoMesh.nTria 0 + 2 * demoMesh.nQuad 0
    ∧ countFacets (writeDataLines demoMesh MASTER_NODE)
        = sumTo (fun r => demoMesh.nTria r + 2 * demoMesh.nQuad r) demoMesh.size :=
  ⟨(facet_conservation demoMesh).1 0 (by decide), (facet_conservation demoMesh).2.1⟩

/-- C6: only the master rank emits anything; its artifact is the
header, then rank by rank the first nLocalTriaAll facet records, each
consisting of the fixed placeholder normal (1, 2, 3), the outer loop
with the three vertex lines carrying 3 scalars each read from the
producing rank buffer, the closing tokens, and finally the footer. -/
theorem master_only_serialization (m : Mesh) :
    (∀ r, r ≠ MASTER_NODE → writeDataLines m r = [])
    ∧ writeDataLines m MASTER_NODE
        = StlLine.solidHeader ::
          ((List.range m.size).flatMap (fun p =>
            (List.range (nLocalTriaAll m p)).flatMap (fun e =>
              [StlLine.facetNormal 1 2 3, StlLine.outerLoop,
               StlLine.vertex ((bufSend m p).getD (e * 9) 0)
                 ((bufSend m p).getD (e * 9 + 1) 0)
                 ((bufSend m p).getD (e * 9 + 2) 0),
               StlLine.vertex ((bufSend m p).getD (e * 9 + 3) 0)
                 ((bufSend m p).getD (e * 9 + 4) 0)
                 ((bufSend m p).getD (e * 9 + 5) 0),
               StlLine.vertex ((bufSend m p).getD (e * 9 + 6) 0)
                 ((bufSend m p).getD (e * 9 + 7) 0)
                 ((bufSend m p).getD (e * 9 + 8) 0),
               StlLine.endLoop, StlLine.endFacet])))
          ++ [StlLine.endsolidFooter] := by
  constructor
  · intro r hrm
    unfold writeDataLines
    rw [if_neg hrm]
  · rw [writeData_eq_writeClean]
    rfl

/-- Witness for C6: the non-master rank of the demo mesh emits
nothing. -/
theorem master_only_serialization_witness :
    writeDataLines demoMesh 1 = [] :=
  (master_only_serialization demoMesh).1 1 (by decide)

/-- C7: on a single rank the halo set is empty while every
communication buffer keeps the sentinel physical size of one element,
and the send buffer is exactly the direct enumeration of the element
field tuples in (element, node, field) order with every value read
locally and no halo lookup performed. -/
theorem single_rank_round_trip (m : Mesh) (hV : m.Valid) (h1 : m.size = 1) :
    sortedHaloNodes m 0 = []
    ∧ numHaloNodes m 0 = 0
    ∧ sortedHaloNodesPhys m 0 = [0]
    ∧ nodesToSendPhysLen m 0 = 1
    ∧ dataToSendPhysLen m 0 = 1
    ∧ haloVarDataPhysLen m 0 = 1
    ∧ bufSend m 0 = directEnum m 0 := by
  have hr0 : 0 < m.size := by omega
  have hempty : sortedHaloNodes m 0 = [] := by
    cases hS : sortedHaloNodes m 0 with
    | nil => rfl
    | cons a t =>
      exfalso
      have hmem : a ∈ sortedHaloNodes m 0 := by rw [hS]; simp
      have hprops := sortedHaloNodes_props m hV hr0 hmem
      have := (hV.1.2.2 a hprops.1).1
      omega
  have hnum : numHaloNodes m 0 = 0 := by
    unfold numHaloNodes
    rw [hempty]
    rfl
  have htot : totalNumNodesToSend m 0 = 0 := by
    unfold totalNumNodesToSend nodesToSendDispl numNodesToSend numNodesToReceive
    rw [h1, hempty]
    simp [sumTo]
  refine ⟨hempty, hnum, ?_, ?_, ?_, ?_, ?_⟩
  · unfold sortedHaloNodesPhys
    rw [if_pos hempty]
  · unfold nodesToSendPhysLen
    rw [htot]
    decide
  · unfold dataToSendPhysLen
    rw [htot]
    simp
  · unfold haloVarDataPhysLen
    rw [hnum]
    simp
  · have hforall : ∀ g, g < m.nodeBegin m.size → m.findProc g = 0 := by
      intro g hg
      have := (hV.1.2.2 g hg).1
      omega
    unfold bufSend directEnum triaPart quadPart
    congr 1
    · apply flatMap_congr
      intro e he
      rw [List.mem_range] at he
      apply flatMap_congr
      intro p hp
      rw [List.mem_range] at hp
      apply List.map_congr_left
      intro v _
      unfold resolveNode
      have hg : m.triaConn 0 (e * 3 + p) - 1 < m.nodeBegin m.size :=
        ((hV.2 0 hr0).1 (e * 3 + p) (by omega)).2
      rw [if_pos (hforall _ hg)]
    · apply flatMap_congr
      intro e he
      rw [List.mem_range] at he
      apply flatMap_congr
      intro c hc
      have hc4 : c < 4 := by
        simp [nodelist] at hc
        rcases hc with rfl | rfl | rfl | rfl | rfl | rfl <;> omega
      apply List.map_congr_left
      intro v _
      unfold resolveNode
      have hg : m.quadConn 0 (e * 4 + c) - 1 < m.nodeBegin m.size :=
        ((hV.2 0 hr0).2 (e * 4 + c) (by omega)).2
      rw [if_pos (hforall _ hg)]

/-- Witness for C7 on the one-rank mesh. -/
theorem single_rank_round_trip_witness :
    sortedHaloNodes soloMesh 0 = []
    ∧ bufSend soloMesh 0 = directEnum soloMesh 0 :=
  ⟨(single_rank_round_trip soloMesh (by decide) (by decide)).1,
   (single_rank_round_trip soloMesh (by decide) (by decide)).2.2.2.2.2.2⟩

/-! ## Congruence of the whole pipeline under agreement of its inputs -/

theorem agree_haloCandidates (m1 m2 : Mesh) (hA : MeshAgree m1 m2) (hV : m1.Valid)
    {r : Nat} (hr : r < m1.size) : haloCandidates m1 r = haloCandidates m2 r := by
  unfold haloCandidates
  rw [← hA.nTria_eq r hr, ← hA.nQuad_eq r hr]
  congr 1
  · have hm : (List.range (m1.nTria r * 3)).map (fun i => m1.triaConn r i - 1)
        = (List.range (m1.nTria r * 3)).map (fun i => m2.triaConn r i - 1) :=
      List.map_congr_left (fun i hi => by
        rw [hA.triaConn_eq r hr i (List.mem_range.mp hi)])
    rw [← hm]
    apply List.filter_congr
    intro g hg
    rcases List.mem_map.mp hg with ⟨i, hi, rfl⟩
    rw [List.mem_range] at hi
    have hb := ((hV.2 r hr).1 i hi).2
    rw [hA.findProc_eq _ hb]
  · have hm : (List.range (m1.nQuad r * 4)).map (fun i => m1.quadConn r i - 1)
        = (List.range (m1.nQuad r * 4)).map (fun i => m2.quadConn r i - 1) :=
      List.map_congr_left (fun i hi => by
        rw [hA.quadConn_eq r hr i (List.mem_range.mp hi)])
    rw [← hm]
    apply List.filter_congr
    intro g hg
    rcases List.mem_map.mp hg with ⟨i, hi, rfl⟩
    rw [List.mem_range] at hi
    have hb := ((hV.2 r hr).2 i hi).2
    rw [hA.findProc_eq _ hb]

theorem agree_sortedHaloNodes (m1 m2 : Mesh) (hA : MeshAgree m1 m2) (hV : m1.Valid)
    {r : Nat} (hr : r < m1.size) : sortedHaloNodes m1 r = sortedHaloNodes m2 r := by
  unfold sortedHaloNodes
  rw [agree_haloCandidates m1 m2 hA hV hr]

theorem agree_numNodesToReceive (m1 m2 : Mesh) (hA : MeshAgree m1 m2) (hV : m1.Valid)
    {r : Nat} (hr : r < m1.size) (rr : Nat) :
    numNodesToReceive m1 r rr = numNodesToReceive m2 r rr := by
  unfold numNodesToReceive
  rw [← agree_sortedHaloNodes m1 m2 hA hV hr]
  apply congrArg List.length
  apply List.filter_congr
  intro g hg
  have hb := (sortedHaloNodes_props m1 hV hr hg).1
  rw [hA.findProc_eq _ hb]

theorem agree_nodesToReceiveDispl (m1 m2 : Mesh) (hA : MeshAgree m1 m2)
    (hV : m1.Valid) {r : Nat} (hr : r < m1.size) (rr : Nat) :
    nodesToReceiveDispl m1 r rr = nodesToReceiveDispl m2 r rr :=
  sumTo_congr rr (fun k _ => agree_numNodesToReceive m1 m2 hA hV hr k)

theorem agree_numNodesToSend (m1 m2 : Mesh) (hA : MeshAgree m1 m2) (hV : m1.Valid)
    {r : Nat} (rr : Nat) (hrr : rr < m1.size) :
    numNodesToSend m1 r rr = numNodesToSend m2 r rr :=
  agree_numNodesToReceive m1 m2 hA hV hrr r

theorem agree_nodesToSendDispl (m1 m2 : Mesh) (hA : MeshAgree m1 m2) (hV : m1.Valid)
    (r : Nat) {p : Nat} (hp : p ≤ m1.size) :
    nodesToSendDispl m1 r p = nodesToSendDispl m2 r p :=
  sumTo_congr p (fun k hk => agree_numNodesToSend m1 m2 hA hV k (by omega))

theorem agree_nodesToSend (m1 m2 : Mesh) (hA : MeshAgree m1 m2) (hV : m1.Valid)
    (r : Nat) : nodesToSend m1 r = nodesToSend m2 r := by
  unfold nodesToSend
  rw [← hA.size_eq]
  apply flatMap_congr
  intro p hp
  rw [List.mem_range] at hp
  rw [agree_sortedHaloNodes m1 m2 hA hV hp,
    agree_nodesToReceiveDispl m1 m2 hA hV hp r,
    agree_numNodesToReceive m1 m2 hA hV hp r]

theorem agree_dataToSend (m1 m2 : Mesh) (hA : MeshAgree m1 m2) (hV : m1.Valid)
    {r : Nat} (hr : r < m1.size) : dataToSend m1 r = dataToSend m2 r := by
  unfold dataToSend
  rw [← hA.size_eq, ← hA.nFields_eq]
  apply flatMap_congr
  intro p hp
  rw [List.mem_range] at hp
  have hseg : sendSeg m1 r p = sendSeg m2 r p := by
    unfold sendSeg
    rw [agree_nodesToSend m1 m2 hA hV r,
      agree_nodesToSendDispl m1 m2 hA hV r (by omega),
      agree_numNodesToSend m1 m2 hA hV p hp]
  rw [← hseg]
  apply flatMap_congr
  intro v hv
  rw [List.mem_range] at hv
  apply List.map_congr_left
  intro g hg
  have hgmem : g ∈ (sortedHaloNodes m1 p).filter
      (fun x => decide (m1.findProc x = r)) := by
    rw [← sendSeg_eq m1 hV hr hp]
    exact hg
  rcases List.mem_filter.mp hgmem with ⟨hgS, hgr⟩
  simp only [decide_eq_true_eq] at hgr
  have hbound := sortedHaloNodes_props m1 hV hp hgS
  obtain ⟨ho1, ho2, ho3⟩ := hV.1.2.2 g hbound.1
  rw [hgr] at ho2 ho3
  exact hA.localData_eq r hr v hv g ho2 ho3

theorem agree_haloVarData (m1 m2 : Mesh) (hA : MeshAgree m1 m2) (hV : m1.Valid)
    {r : Nat} (hr : r < m1.size) : haloVarData m1 r = haloVarData m2 r := by
  unfold haloVarData
  rw [← hA.size_eq]
  apply flatMap_congr
  intro p hp
  rw [List.mem_range] at hp
  rw [agree_dataToSend m1 m2 hA hV hp,
    show valuesToSendDispl m1 p r = valuesToSendDispl m2 p r from by
      unfold valuesToSendDispl
      rw [agree_nodesToSendDispl m1 m2 hA hV p (Nat.le_of_lt hr), hA.nFields_eq],
    show numValuesToReceive m1 r p = numValuesToReceive m2 r p from by
      unfold numValuesToReceive
      rw [agree_numNodesToReceive m1 m2 hA hV hr p, hA.nFields_eq]]

theorem agree_haloScan (m1 m2 : Mesh) (hA : MeshAgree m1 m2) (hV : m1.Valid)
    {r : Nat} (hr : r < m1.size) (v offset : Nat) :
    ∀ (fuel iRank id : Nat),
      haloScan m1 r v offset fuel iRank id = haloScan m2 r v offset fuel iRank id := by
  intro fuel
  induction fuel with
  | zero => intro _ _; rfl
  | succ fuel ih =>
    intro iRank id
    simp only [haloScan]
    rw [agree_numNodesToReceive m1 m2 hA hV hr iRank,
      agree_haloVarData m1 m2 hA hV hr,
      show valuesToReceiveDispl m1 r iRank = valuesToReceiveDispl m2 r iRank from by
        unfold valuesToReceiveDispl
        rw [agree_nodesToReceiveDispl m1 m2 hA hV hr iRank, hA.nFields_eq],
      ih]

theorem agree_getHaloNodeValue (m1 m2 : Mesh) (hA : MeshAgree m1 m2) (hV : m1.Valid)
    {r : Nat} (hr : r < m1.size) (g v : Nat) :
    GetHaloNodeValue m1 r g v = GetHaloNodeValue m2 r g v := by
  unfold GetHaloNodeValue
  rw [show lowerBoundIdx (sortedHaloNodes m1 r) g
      = lowerBoundIdx (sortedHaloNodes m2 r) g from by
    unfold lowerBoundIdx
    rw [agree_sortedHaloNodes m1 m2 hA hV hr]]
  rw [← hA.size_eq]
  exact agree_haloScan m1 m2 hA hV hr v _ m1.size 0 0

theorem agree_resolveNode (m1 m2 : Mesh) (hA : MeshAgree m1 m2) (hV : m1.Valid)
    {r g : Nat} (hr : r < m1.size) (hb : g < m1.nodeBegin m1.size)
    {v : Nat} (hv : v < m1.nFields) :
    resolveNode m1 r g v = resolveNode m2 r g v := by
  unfold resolveNode
  rw [← hA.findProc_eq g hb]
  by_cases hpr : m1.findProc g = r
  · rw [if_pos hpr, if_pos hpr]
    obtain ⟨ho1, ho2, ho3⟩ := hV.1.2.2 g hb
    rw [hpr] at ho2 ho3
    exact hA.localData_eq r hr v hv g ho2 ho3
  · rw [if_neg hpr, if_neg hpr]
    rw [agree_getHaloNodeValue m1 m2 hA hV hr g v]

theorem agree_bufSend (m1 m2 : Mesh) (hA : MeshAgree m1 m2) (hV : m1.Valid)
    (h3 : 3 ≤ m1.nFields) {r : Nat} (hr : r < m1.size) :
    bufSend m1 r = bufSend m2 r := by
  unfold bufSend triaPart quadPart
  rw [← hA.nTria_eq r hr, ← hA.nQuad_eq r hr]
  congr 1
  · apply flatMap_congr
    intro e he
    rw [List.mem_range] at he
    apply flatMap_congr
    intro p hp
    rw [List.mem_range] at hp
    rw [← hA.triaConn_eq r hr (e * 3 + p) (by omega)]
    apply List.map_congr_left
    intro v hv
    rw [List.mem_range] at hv
    exact agree_resolveNode m1 m2 hA hV hr
      (by
        have h1 := ((hV.2 r hr).1 (e * 3 + p) (by omega)).2
        exact h1) (by omega)
  · apply flatMap_congr
    intro e he
    rw [List.mem_range] at he
    apply flatMap_congr
    intro c hc
    have hc4 : c < 4 := by
      simp [nodelist] at hc
      rcases hc with rfl | rfl | rfl | rfl | rfl | rfl <;> omega
    rw [← hA.quadConn_eq r hr (e * 4 + c) (by omega)]
    apply List.map_congr_left
    intro v hv
    rw [List.mem_range] at hv
    exact agree_resolveNode m1 m2 hA hV hr
      (by
        have h1 := ((hV.2 r hr).2 (e * 4 + c) (by omega)).2
        exact h1) (by omega)

theorem agree_nLocalTriaAll (m1 m2 : Mesh) (hA : MeshAgree m1 m2) {r : Nat}
    (hr : r < m1.size) : nLocalTriaAll m1 r = nLocalTriaAll m2 r := by
  unfold nLocalTriaAll
  rw [hA.nTria_eq r hr, hA.nQuad_eq r hr]

theorem agree_maxLocalTriaAll (m1 m2 : Mesh) (hA : MeshAgree m1 m2) :
    maxLocalTriaAll m1 = maxLocalTriaAll m2 := by
  unfold maxLocalTriaAll
  rw [← hA.size_eq]
  apply congrArg (List.foldr max 0)
  apply List.map_congr_left
  intro r hrm
  exact agree_nLocalTriaAll m1 m2 hA (List.mem_range.mp hrm)

theorem agree_bufRecv (m1 m2 : Mesh) (hA : MeshAgree m1 m2) (hV : m1.Valid)
    (h3 : 3 ≤ m1.nFields) : bufRecv m1 = bufRecv m2 := by
  unfold bufRecv
  rw [← hA.size_eq]
  apply flatMap_congr
  intro p hp
  rw [List.mem_range] at hp
  unfold bufSendPadded
  rw [agree_bufSend m1 m2 hA hV h3 hp, agree_maxLocalTriaAll m1 m2 hA]

theorem agree_bufferRecvNTriaAll (m1 m2 : Mesh) (hA : MeshAgree m1 m2) :
    bufferRecvNTriaAll m1 = bufferRecvNTriaAll m2 := by
  unfold bufferRecvNTriaAll
  rw [← hA.size_eq]
  apply List.map_congr_left
  intro r hrm
  exact agree_nLocalTriaAll m1 m2 hA (List.mem_range.mp hrm)

theorem agree_facetRecord (m1 m2 : Mesh) (hA : MeshAgree m1 m2) (hV : m1.Valid)
    (h3 : 3 ≤ m1.nFields) (iProc iElem : Nat) :
    facetRecord m1 iProc iElem = facetRecord m2 iProc iElem := by
  unfold facetRecord
  rw [agree_bufRecv m1 m2 hA hV h3, agree_maxLocalTriaAll m1 m2 hA]

/-- C10: Write_Data is deterministic: its artifact depends only on the
rank and field counts, the node partition boundaries, the ownership
map, the element connectivity and the owned field values; two mesh
states agreeing on those produce identical line sequences on every
rank. -/
theorem write_data_deterministic (m1 m2 : Mesh) (hA : MeshAgree m1 m2)
    (hV : m1.Valid) (h3 : 3 ≤ m1.nFields) (r : Nat) :
    writeDataLines m1 r = writeDataLines m2 r := by
  unfold writeDataLines
  by_cases hmr : r = MASTER_NODE
  · rw [if_pos hmr, if_pos hmr]
    congr 1
    congr 1
    rw [← hA.size_eq, agree_bufferRecvNTriaAll m1 m2 hA]
    apply flatMap_congr
    intro p hp
    apply flatMap_congr
    intro e he
    exact agree_facetRecord m1 m2 hA hV h3 p e
  · rw [if_neg hmr, if_neg hmr]

/-- Witness for C10: the demo mesh agrees with itself on all inputs of
the writer, so the artifact is reproducible. -/
theorem write_data_deterministic_witness :
    writeDataLines demoMesh 0 = writeDataLines demoMesh 0 :=
  write_data_deterministic demoMesh demoMesh
    ⟨rfl, rfl, fun _ _ => rfl, fun _ _ => rfl, fun _ _ => rfl, fun _ _ => rfl,
     fun _ _ _ _ => rfl, fun _ _ _ _ => rfl, fun _ _ _ _ _ _ _ => rfl⟩
    (by decide) (by decide) 0

end STLWriter
